import Mathlib

/-!
Verification model of `unit3_pp/scripts/unit3_astar_solution.py`, an A-star
grid path planner.

Modelling conventions:

* Python integers are `ℤ`, Python list/grid indices are `ℤ` (Python allows
  negative indices, which read from the end of the list; this is modelled by
  `pyGet`).  Costmap cells are `ℤ`.
* Exceptions (`IndexError`, `KeyError`, `ZeroDivisionError`) are modelled with
  `Except PyErr`.  An out-of-range list access or a missing dictionary key is
  an error value, exactly where Python would raise.
* Lean's `Int` `%` and `/` agree with Python's `%` and `//` for a positive
  modulus/divisor (both are Euclidean there), which is the regime in which the
  planner runs; `width = 0` is caught explicitly, where Python raises
  `ZeroDivisionError` at the first `%`.
* Python floats are modelled by exact rationals `ℚ`.  The heuristic
  `euclidean_distance(indexToWorld(i), indexToWorld(goal))` computes a square
  root, which has no exact rational value, so `a_star` takes the heuristic
  value function `hfun : ℤ → ℚ` as a parameter: each concrete run of the
  Python program uses some assignment of (float, hence rational) heuristic
  values, so theorems quantified over `hfun` cover every run.  The square-root
  heuristic itself is modelled separately over `ℝ` (`euclidean_distance`).
* The two `while` loops are modelled with an explicit fuel parameter; the
  main-loop fuel `2 * costmap.length + 2` is proved sufficient
  (the loop never returns its fuel-exhaustion marker).
* The `grid_viz` callbacks and `rospy` logging are pure observers with no
  influence on the search and are omitted.
-/

inductive PyErr where
  | indexError : PyErr
  | keyError : PyErr
  | zeroDivisionError : PyErr
deriving DecidableEq

/-- Python sequence indexing `l[i]`: nonnegative indices are positions from
the front, indices in `[-len, 0)` read from the end, anything else raises
`IndexError`. -/
def pyGet (l : List ℤ) (i : ℤ) : Except PyErr ℤ :=
  if 0 ≤ i ∧ i < (l.length : ℤ) then
    match l.get? i.toNat with
    | some v => .ok v
    | none => .error .indexError
  else if -(l.length : ℤ) ≤ i ∧ i < 0 then
    match l.get? (i + (l.length : ℤ)).toNat with
    | some v => .ok v
    | none => .error .indexError
  else .error .indexError

/-- One candidate direction inside `find_neighbors` (source lines 29-75):
if the boundary condition `cond` holds, read the candidate cell's cost and
keep the candidate when the cost is below the lethal threshold `1`,
with step cost `base + cost/255`. -/
def dirCheck (cond : Prop) [Decidable cond] (n : ℤ) (base : ℚ) (costmap : List ℤ) :
    Except PyErr (List (ℤ × ℚ)) :=
  if cond then
    match pyGet costmap n with
    | .error e => .error e
    | .ok c => if c < 1 then .ok [(n, base + (c : ℚ) / 255)] else .ok []
  else .ok []

/-- `find_neighbors(index, width, height, costmap, orthogonal_step_cost)`
(source lines 17-77).  The eight candidate directions are examined in source
order (upper, left, upper left, upper right, right, lower left, lower,
lower right) with the boundary conditions written exactly as in the source;
`lethal_cost = 1` and `diagonal_step_cost = orthogonal_step_cost * 1.41421`.
When `width = 0` Python raises `ZeroDivisionError` at the first `%`, which
sits in the `left` check, after the `upper` check has already run. -/
def find_neighbors (index width height : ℤ) (costmap : List ℤ)
    (orthogonal_step_cost : ℚ) : Except PyErr (List (ℤ × ℚ)) :=
  let diagonal_step_cost : ℚ := orthogonal_step_cost * (141421 / 100000)
  (dirCheck (index - width > 0) (index - width) orthogonal_step_cost costmap).bind (fun l1 =>
  if width = 0 then .error .zeroDivisionError else
  (dirCheck ((index - 1) % width > 0) (index - 1) orthogonal_step_cost costmap).bind (fun l2 =>
  (dirCheck (index - width - 1 > 0 ∧ (index - width - 1) % width > 0)
      (index - width - 1) diagonal_step_cost costmap).bind (fun l3 =>
  (dirCheck (index - width + 1 > 0 ∧ (index - width + 1) % width ≠ width - 1)
      (index - width + 1) diagonal_step_cost costmap).bind (fun l4 =>
  (dirCheck ((index + 1) % width ≠ width + 1) (index + 1) orthogonal_step_cost costmap).bind (fun l5 =>
  (dirCheck (index + width - 1 < height * width ∧ (index + width - 1) % width ≠ 0)
      (index + width - 1) diagonal_step_cost costmap).bind (fun l6 =>
  (dirCheck (index + width ≤ height * width) (index + width) orthogonal_step_cost costmap).bind (fun l7 =>
  (dirCheck (index + width + 1 ≤ height * width ∧ (index + width + 1) % width ≠ width - 1)
      (index + width + 1) diagonal_step_cost costmap).bind (fun l8 =>
  .ok (l1 ++ l2 ++ l3 ++ l4 ++ l5 ++ l6 ++ l7 ++ l8)))))))))

/-- `indexToWorld(flatmap_index, map_width, map_resolution, map_origin)`
(source lines 79-95): grid column is `index % width`, row is `index // width`,
world coordinates are `resolution * cell + origin`.  The origin list is
modelled by its first two components. -/
def indexToWorld (flatmap_index map_width : ℤ) (map_resolution : ℚ)
    (map_origin : ℚ × ℚ) : List ℚ :=
  [map_resolution * ((flatmap_index % map_width : ℤ) : ℚ) + map_origin.1,
   map_resolution * ((flatmap_index / map_width : ℤ) : ℚ) + map_origin.2]

/-- `euclidean_distance(a, b)` (source lines 138-142): the square root of the
sum of squared componentwise differences.  The inputs produced by
`indexToWorld` are exact rationals; `** 0.5` on a nonnegative float is the
(real) square root. -/
noncomputable def euclidean_distance (a b : List ℚ) : ℝ :=
  Real.sqrt ((((a.zip b).foldl (fun acc p => acc + (p.1 - p.2) ^ 2) 0 : ℚ) : ℝ))

/-- Geometric 8-adjacency of two flat indices under a given width: distinct
cells whose rows and columns each differ by at most one. -/
def adj8 (width i j : ℤ) : Prop :=
  i ≠ j ∧ |i / width - j / width| ≤ 1 ∧ |i % width - j % width| ≤ 1

instance (width i j : ℤ) : Decidable (adj8 width i j) := by
  unfold adj8; infer_instance

/-- Cost of a concrete path through the neighbor graph generated by
`find_neighbors`: each consecutive step must appear in the predecessor's
neighbor list, and the costs of the used steps are summed.  `none` when some
step is not offered by `find_neighbors`.  This is the step-cost metric against
which the heuristic's admissibility is judged. -/
def path_cost (width height : ℤ) (costmap : List ℤ) (o : ℚ) : List ℤ → Option ℚ
  | [] => none
  | [_] => some 0
  | a :: b :: t =>
    match find_neighbors a width height costmap o with
    | .error _ => none
    | .ok nbs =>
      match nbs.find? (fun p => decide (p.1 = b)) with
      | none => none
      | some p =>
        match path_cost width height costmap o (b :: t) with
        | none => none
        | some c => some (p.2 + c)

/-- The comparison used by `open_list.sort(key = lambda x: x[1])`:
order by `f_cost`, the second component. -/
def fLE (p q : ℤ × ℚ) : Prop := p.2 ≤ q.2

instance : DecidableRel fLE := fun p q => inferInstanceAs (Decidable (p.2 ≤ q.2))

instance : IsTotal (ℤ × ℚ) fLE := ⟨fun a b => le_total a.2 b.2⟩

instance : IsTrans (ℤ × ℚ) fLE := ⟨fun _ _ _ hab hbc => le_trans hab hbc⟩

/-- `open_list.sort(key = lambda x: x[1])` (source line 190).  Python's sort
is stable; stable sorting by a key is a unique function of the input list, so
the stable `List.insertionSort` computes exactly the list Python produces. -/
def sortOpen (l : List (ℤ × ℚ)) : List (ℤ × ℚ) :=
  List.insertionSort fLE l

/-- Search-scoped state of one `a_star` call: the open list of
`[index, f_cost]` pairs, the closed set, and the `parents`, `g_costs` and
`f_costs` dictionaries (a Python dict keyed by node index is a partial map
`ℤ → Option _`). -/
structure AState where
  open_list : List (ℤ × ℚ)
  closed_list : Finset ℤ
  parents : ℤ → Option ℤ
  g_costs : ℤ → Option ℚ
  f_costs : ℤ → Option ℚ

/-- Python dict update `d[k] = v`. -/
def dictSet {α : Type} (d : ℤ → Option α) (k : ℤ) (v : α) : ℤ → Option α :=
  fun x => if x = k then some v else d x

/-- Python dict read `d[k]`, raising `KeyError` when the key is absent. -/
def dictGet {α : Type} (d : ℤ → Option α) (k : ℤ) : Except PyErr α :=
  match d k with
  | some v => .ok v
  | none => .error .keyError

/-- `open_list[idx] = [neighbor_index, f_cost]` where `idx` is the first
position holding `neighbor_index` (source lines 229-243). -/
def updateFirst : List (ℤ × ℚ) → ℤ → ℚ → List (ℤ × ℚ)
  | [], _, _ => []
  | e :: t, n, f => if e.1 = n then (n, f) :: t else e :: updateFirst t n f

/-- Body of the `for neighbor_index, step_cost in neighbors` loop
(source lines 209-256): skip closed neighbors; compute the tentative
`g_cost`, `h_cost` and `f_cost`; then either relax an existing open entry
(CASE 1) or record the node and append it to the open list (CASE 2). -/
def processNeighbor (hfun : ℤ → ℚ) (cur : ℤ) (st : AState) (nb : ℤ × ℚ) :
    Except PyErr AState :=
  if nb.1 ∈ st.closed_list then .ok st
  else
    match st.g_costs cur with
    | none => .error .keyError
    | some gcur =>
      let g : ℚ := gcur + nb.2
      let f : ℚ := g + hfun nb.1
      if st.open_list.any (fun e => decide (e.1 = nb.1)) then
        match st.f_costs nb.1 with
        | none => .error .keyError
        | some fOld =>
          if f < fOld then
            .ok { st with
              g_costs := dictSet st.g_costs nb.1 g,
              f_costs := dictSet st.f_costs nb.1 f,
              parents := dictSet st.parents nb.1 cur,
              open_list := updateFirst st.open_list nb.1 f }
          else .ok st
      else
        .ok { st with
          g_costs := dictSet st.g_costs nb.1 g,
          f_costs := dictSet st.f_costs nb.1 f,
          parents := dictSet st.parents nb.1 cur,
          open_list := st.open_list ++ [(nb.1, f)] }

/-- Sequential processing of the whole neighbor list, aborting at the first
raised exception. -/
def processAll (hfun : ℤ → ℚ) (cur : ℤ) : AState → List (ℤ × ℚ) → Except PyErr AState
  | st, [] => .ok st
  | st, nb :: t =>
    match processNeighbor hfun cur st nb with
    | .error e => .error e
    | .ok st2 => processAll hfun cur st2 t

/-- Outcome of the main loop: a raised exception, the fuel-exhaustion marker
of the model (proved unreachable for the fuel `a_star` uses), exit with an
empty open list, or exit through the goal test. -/
inductive LoopRes where
  | failure : PyErr → LoopRes
  | fuelOut : AState → LoopRes
  | exhausted : AState → LoopRes
  | found : AState → LoopRes

def LoopRes.isFuelOut : LoopRes → Bool
  | .fuelOut _ => true
  | _ => false

def LoopRes.isExhausted : LoopRes → Bool
  | .exhausted _ => true
  | _ => false

/-- Main `while open_list:` loop of `a_star` (source lines 187-256): sort the
open list by `f_cost`, pop the head, close it, stop if it is the goal,
otherwise expand it through `find_neighbors` (note the source passes
`resolution` as the orthogonal step cost) and process each neighbor. -/
def a_star_loop (goal_index width height : ℤ) (costmap : List ℤ)
    (resolution : ℚ) (hfun : ℤ → ℚ) : ℕ → AState → LoopRes
  | 0, st => .fuelOut st
  | Nat.succ fuel, st =>
    match sortOpen st.open_list with
    | [] => .exhausted st
    | cur :: rest =>
      let st1 : AState :=
        { st with open_list := rest, closed_list := insert cur.1 st.closed_list }
      if cur.1 = goal_index then .found st1
      else
        match find_neighbors cur.1 width height costmap resolution with
        | .error e => .failure e
        | .ok nbs =>
          match processAll hfun cur.1 st1 nbs with
          | .error e => .failure e
          | .ok st2 => a_star_loop goal_index width height costmap resolution hfun fuel st2

/-- Initial search state (source lines 152-179): `g_costs[start] = 0`,
`f_costs[start] = h_cost`, open list `[[start, h_cost]]`, everything else
empty. -/
def initState (start_index : ℤ) (hfun : ℤ → ℚ) : AState :=
  { open_list := [(start_index, hfun start_index)],
    closed_list := ∅,
    parents := fun _ => none,
    g_costs := dictSet (fun _ => none) start_index 0,
    f_costs := dictSet (fun _ => none) start_index (hfun start_index) }

/-- The `while node != start_index:` reconstruction loop (source lines
266-270), modelled with fuel: append the current node, then follow its parent
link (`KeyError` if absent).  `none` is the model's fuel-exhaustion marker. -/
def reconWalk (parents : ℤ → Option ℤ) (start_index : ℤ) :
    ℕ → ℤ → List ℤ → Option (Except PyErr (List ℤ))
  | 0, node, acc => if node = start_index then some (.ok acc) else none
  | Nat.succ fuel, node, acc =>
    if node = start_index then some (.ok acc)
    else
      match parents node with
      | none => some (.error .keyError)
      | some p => reconWalk parents start_index fuel p (acc ++ [node])

/-- `a_star(start_index, goal_index, width, height, costmap, resolution,
origin, grid_viz)` (source lines 147-276).  The heuristic value function
`hfun` stands for
`fun i => euclidean_distance(indexToWorld(i, width, resolution, origin),
indexToWorld(goal_index, width, resolution, origin))`; `origin` and
`goal_index` enter the heuristic only through it.  On goal discovery the
source seeds the path list with `goal_index` and runs the reconstruction
loop, then reverses the list; on an exhausted open list it returns the empty
list. -/
def a_star (start_index goal_index width height : ℤ) (costmap : List ℤ)
    (resolution : ℚ) (hfun : ℤ → ℚ) : Option (Except PyErr (List ℤ)) :=
  match a_star_loop goal_index width height costmap resolution hfun
      (2 * costmap.length + 2) (initState start_index hfun) with
  | .failure e => some (.error e)
  | .fuelOut _ => none
  | .exhausted _ => some (.ok [])
  | .found st =>
    match reconWalk st.parents start_index (2 * costmap.length + 2)
        goal_index [goal_index] with
    | none => none
    | some (.error e) => some (.error e)
    | some (.ok l) => some (.ok l.reverse)

/-- All indices at which a Python read of the costmap can succeed, together
with a given start index: every node that can ever sit in the open or closed
set lies in this finite set. -/
def validSet (costmap : List ℤ) (start_index : ℤ) : Finset ℤ :=
  insert start_index (Finset.Icc (-(costmap.length : ℤ)) ((costmap.length : ℤ) - 1))

/-- Open-list discipline: no duplicate indices, open indices are never
closed, and open indices lie in `S`. -/
def OpenOK (S : Finset ℤ) (st : AState) : Prop :=
  (st.open_list.map Prod.fst).Nodup ∧
  (∀ n ∈ st.open_list.map Prod.fst, n ∉ st.closed_list) ∧
  (∀ n ∈ st.open_list.map Prod.fst, n ∈ S)

/-! ### Basic lemmas about the Python primitives -/

lemma pyGet_ok_bounds {l : List ℤ} {i v : ℤ} (h : pyGet l i = .ok v) :
    -(l.length : ℤ) ≤ i ∧ i < (l.length : ℤ) := by
  unfold pyGet at h
  split_ifs at h with h1 h2
  · omega
  · omega

lemma pyGet_ok_mem {l : List ℤ} {i v : ℤ} (h : pyGet l i = .ok v) : v ∈ l := by
  unfold pyGet at h
  split_ifs at h with h1 h2
  · split at h
    · rename_i v2 hv2
      cases h
      exact List.get?_mem hv2
    · cases h
  · split at h
    · rename_i v2 hv2
      cases h
      exact List.get?_mem hv2
    · cases h

lemma except_bind_ok {α β : Type} {e : Except PyErr α} {f : α → Except PyErr β}
    {b : β} (h : e.bind f = .ok b) : ∃ a, e = .ok a ∧ f a = .ok b := by
  cases e with
  | error err => exact absurd h (by simp [Except.bind])
  | ok a => exact ⟨a, rfl, h⟩

lemma dirCheck_ok_mem {c : Prop} [Decidable c] {n : ℤ} {base : ℚ} {cm : List ℤ}
    {l : List (ℤ × ℚ)} (h : dirCheck c n base cm = .ok l) :
    ∀ x ∈ l, x.1 = n ∧ ∃ v, pyGet cm n = .ok v ∧ v < 1 ∧ x.2 = base + (v : ℚ) / 255 := by
  unfold dirCheck at h
  split_ifs at h with hc
  · split at h
    · exact absurd h (by simp)
    · rename_i v hv
      split_ifs at h with hlt
      · intro x hx
        have hl : l = [(n, base + (v : ℚ) / 255)] := ((Except.ok.injEq _ _).mp h).symm
        subst hl
        rcases List.mem_singleton.mp hx with rfl
        exact ⟨rfl, v, hv, hlt, rfl⟩
      · have hl : l = [] := ((Except.ok.injEq _ _).mp h).symm
        subst hl
        intro x hx
        exact absurd hx (List.not_mem_nil x)
  · have hl : l = [] := ((Except.ok.injEq _ _).mp h).symm
    subst hl
    intro x hx
    exact absurd hx (List.not_mem_nil x)

/-- Every pair in a successful `find_neighbors` result reads a sub-lethal
cost from the costmap (possibly via a negative Python index), its step cost
is the orthogonal or diagonal base plus `cost/255`, and its index is one of
the eight literal offsets of the source. -/
lemma find_neighbors_ok_mem {index width height : ℤ} {cm : List ℤ} {o : ℚ}
    {res : List (ℤ × ℚ)} (h : find_neighbors index width height cm o = .ok res) :
    ∀ x ∈ res,
      (∃ v, pyGet cm x.1 = .ok v ∧ v < 1 ∧
        (x.2 = o + (v : ℚ) / 255 ∨ x.2 = o * (141421 / 100000) + (v : ℚ) / 255)) ∧
      x.1 - index ∈ ([-width - 1, -width, -width + 1, -1, 1,
        width - 1, width, width + 1] : List ℤ) := by
  unfold find_neighbors at h
  obtain ⟨l1, h1, h⟩ := except_bind_ok h
  by_cases hw : width = 0
  · rw [if_pos hw] at h
    cases h
  · rw [if_neg hw] at h
    obtain ⟨l2, h2, h⟩ := except_bind_ok h
    obtain ⟨l3, h3, h⟩ := except_bind_ok h
    obtain ⟨l4, h4, h⟩ := except_bind_ok h
    obtain ⟨l5, h5, h⟩ := except_bind_ok h
    obtain ⟨l6, h6, h⟩ := except_bind_ok h
    obtain ⟨l7, h7, h⟩ := except_bind_ok h
    obtain ⟨l8, h8, h⟩ := except_bind_ok h
    have hres : res = l1 ++ l2 ++ l3 ++ l4 ++ l5 ++ l6 ++ l7 ++ l8 :=
      ((Except.ok.injEq _ _).mp h).symm
    subst hres
    intro x hx
    simp only [List.mem_append] at hx
    rcases hx with ((((((hx | hx) | hx) | hx) | hx) | hx) | hx) | hx
    · obtain ⟨hn, v, hv, hlt, hc⟩ := dirCheck_ok_mem h1 x hx
      refine ⟨⟨v, hn ▸ hv, hlt, Or.inl hc⟩, ?_⟩
      simp only [List.mem_cons, List.not_mem_nil, or_false]
      omega
    · obtain ⟨hn, v, hv, hlt, hc⟩ := dirCheck_ok_mem h2 x hx
      refine ⟨⟨v, hn ▸ hv, hlt, Or.inl hc⟩, ?_⟩
      simp only [List.mem_cons, List.not_mem_nil, or_false]
      omega
    · obtain ⟨hn, v, hv, hlt, hc⟩ := dirCheck_ok_mem h3 x hx
      refine ⟨⟨v, hn ▸ hv, hlt, Or.inr hc⟩, ?_⟩
      simp only [List.mem_cons, List.not_mem_nil, or_false]
      omega
    · obtain ⟨hn, v, hv, hlt, hc⟩ := dirCheck_ok_mem h4 x hx
      refine ⟨⟨v, hn ▸ hv, hlt, Or.inr hc⟩, ?_⟩
      simp only [List.mem_cons, List.not_mem_nil, or_false]
      omega
    · obtain ⟨hn, v, hv, hlt, hc⟩ := dirCheck_ok_mem h5 x hx
      refine ⟨⟨v, hn ▸ hv, hlt, Or.inl hc⟩, ?_⟩
      simp only [List.mem_cons, List.not_mem_nil, or_false]
      omega
    · obtain ⟨hn, v, hv, hlt, hc⟩ := dirCheck_ok_mem h6 x hx
      refine ⟨⟨v, hn ▸ hv, hlt, Or.inr hc⟩, ?_⟩
      simp only [List.mem_cons, List.not_mem_nil, or_false]
      omega
    · obtain ⟨hn, v, hv, hlt, hc⟩ := dirCheck_ok_mem h7 x hx
      refine ⟨⟨v, hn ▸ hv, hlt, Or.inl hc⟩, ?_⟩
      simp only [List.mem_cons, List.not_mem_nil, or_false]
      omega
    · obtain ⟨hn, v, hv, hlt, hc⟩ := dirCheck_ok_mem h8 x hx
      refine ⟨⟨v, hn ▸ hv, hlt, Or.inr hc⟩, ?_⟩
      simp only [List.mem_cons, List.not_mem_nil, or_false]
      omega

/-! ### Claims about `find_neighbors` (C2, C9) -/

/-- Claim C2, counterexample.  On an all-zero 3x3 grid, `find_neighbors 2`
returns cell `6` (row 2, column 0), which is not 8-adjacent to cell `2`
(row 0, column 2) — the lower-left/lower/lower-right and right checks let
offsets wrap across row boundaries — and `find_neighbors 1` omits cell `0`,
which is in-bounds, passable and 8-adjacent to cell `1` — the left check
`left % width > 0` rejects a neighbor in column 0. -/
theorem find_neighbors_wrap_cex :
    ((find_neighbors 2 3 3 [0, 0, 0, 0, 0, 0, 0, 0, 0] 1).map (List.map Prod.fst)
        = Except.ok [1, 3, 4, 5, 6] ∧ ¬ adj8 3 2 6) ∧
    ((find_neighbors 1 3 3 [0, 0, 0, 0, 0, 0, 0, 0, 0] 1).map (List.map Prod.fst)
        = Except.ok [2, 4] ∧ (0 : ℤ) ∉ ([2, 4] : List ℤ) ∧ adj8 3 1 0 ∧
      pyGet [0, 0, 0, 0, 0, 0, 0, 0, 0] 0 = .ok 0) :=
  ⟨⟨rfl, by decide⟩, rfl, by decide, by decide, rfl⟩

/-- Claim C2, amended.  Every pair `(n, c)` returned by a successful
`find_neighbors` call satisfies: the costmap read at `n` succeeds (under
Python indexing, so `n` may be negative) and yields a value below the lethal
threshold `1`; `c` is the orthogonal or diagonal base cost plus `cost/255`;
and `n` is one of the eight index offsets `±1`, `±width`, `±width±1` of the
input cell.  Geometric 8-adjacency of `n`, and completeness (no passable
adjacent cell omitted), do not hold — see the counterexample. -/
theorem find_neighbors_step_characterization {index width height : ℤ}
    {cm : List ℤ} {o : ℚ} {res : List (ℤ × ℚ)}
    (h : find_neighbors index width height cm o = .ok res) :
    ∀ x ∈ res,
      (∃ v, pyGet cm x.1 = .ok v ∧ v < 1 ∧
        (x.2 = o + (v : ℚ) / 255 ∨ x.2 = o * (141421 / 100000) + (v : ℚ) / 255)) ∧
      x.1 - index ∈ ([-width - 1, -width, -width + 1, -1, 1,
        width - 1, width, width + 1] : List ℤ) :=
  find_neighbors_ok_mem h

/-- Witness for `find_neighbors_step_characterization` at a concrete input. -/
theorem find_neighbors_step_characterization_witness :
    find_neighbors 4 3 3 [0, 0, 0, 0, 0, 0, 0, 0, 0] 1 =
      .ok [(1, 1 + ((0 : ℤ) : ℚ) / 255), (5, 1 + ((0 : ℤ) : ℚ) / 255),
           (7, 1 + ((0 : ℤ) : ℚ) / 255)] ∧
    ∀ x ∈ ([(1, 1 + ((0 : ℤ) : ℚ) / 255), (5, 1 + ((0 : ℤ) : ℚ) / 255),
           (7, 1 + ((0 : ℤ) : ℚ) / 255)] : List (ℤ × ℚ)),
      (∃ v, pyGet [0, 0, 0, 0, 0, 0, 0, 0, 0] x.1 = .ok v ∧ v < 1 ∧
        (x.2 = 1 + (v : ℚ) / 255 ∨ x.2 = 1 * (141421 / 100000) + (v : ℚ) / 255)) ∧
      x.1 - 4 ∈ ([-3 - 1, -3, -3 + 1, -1, 1, 3 - 1, 3, 3 + 1] : List ℤ) :=
  ⟨rfl, @find_neighbors_step_characterization 4 3 3 [0, 0, 0, 0, 0, 0, 0, 0, 0] 1
    [(1, 1 + ((0 : ℤ) : ℚ) / 255), (5, 1 + ((0 : ℤ) : ℚ) / 255),
     (7, 1 + ((0 : ℤ) : ℚ) / 255)] rfl⟩

/-- Claim C9: with `lethal_cost = 1` and a nonnegative costmap, every
accepted neighbor has destination cost exactly `0`, so the `cost/255`
penalty vanishes and each step cost is exactly `orthogonal_step_cost`
or `orthogonal_step_cost * 1.41421`. -/
theorem find_neighbors_pure_base_steps {index width height : ℤ}
    {cm : List ℤ} {o : ℚ} {res : List (ℤ × ℚ)} (hcm : ∀ v ∈ cm, 0 ≤ v)
    (h : find_neighbors index width height cm o = .ok res) :
    ∀ x ∈ res, pyGet cm x.1 = .ok 0 ∧ (x.2 = o ∨ x.2 = o * (141421 / 100000)) := by
  intro x hx
  obtain ⟨⟨v, hv, hlt, hcost⟩, -⟩ := find_neighbors_ok_mem h x hx
  have hv0 : v = 0 := by
    have := hcm v (pyGet_ok_mem hv)
    omega
  subst hv0
  refine ⟨hv, ?_⟩
  rcases hcost with hc | hc
  · left
    rw [hc]
    norm_num
  · right
    rw [hc]
    norm_num

/-- Witness for `find_neighbors_pure_base_steps` at a concrete input. -/
theorem find_neighbors_pure_base_steps_witness :
    (∀ v ∈ ([0, 0, 0, 0, 0, 0, 0, 0, 0] : List ℤ), 0 ≤ v) ∧
    find_neighbors 4 3 3 [0, 0, 0, 0, 0, 0, 0, 0, 0] 2 =
      .ok [(1, 2 + ((0 : ℤ) : ℚ) / 255), (5, 2 + ((0 : ℤ) : ℚ) / 255),
           (7, 2 + ((0 : ℤ) : ℚ) / 255)] ∧
    ∀ x ∈ ([(1, 2 + ((0 : ℤ) : ℚ) / 255), (5, 2 + ((0 : ℤ) : ℚ) / 255),
           (7, 2 + ((0 : ℤ) : ℚ) / 255)] : List (ℤ × ℚ)),
      pyGet [0, 0, 0, 0, 0, 0, 0, 0, 0] x.1 = .ok 0 ∧
      (x.2 = 2 ∨ x.2 = 2 * (141421 / 100000)) :=
  ⟨by decide, rfl, @find_neighbors_pure_base_steps 4 3 3 [0, 0, 0, 0, 0, 0, 0, 0, 0] 2
    [(1, 2 + ((0 : ℤ) : ℚ) / 255), (5, 2 + ((0 : ℤ) : ℚ) / 255),
     (7, 2 + ((0 : ℤ) : ℚ) / 255)] (by decide) rfl⟩

/-! ### Concrete full runs of `a_star` (C1, C3, C8) -/

/-- Claim C1 fails on the code: on a 3x3 grid whose only open route from
start `0` is the single orthogonal step to goal `1`, `a_star` returns
`[1, 1]` — the goal appears twice, the start does not appear at all, and the
consecutive pair `(1, 1)` is not 8-adjacent.  The reconstruction loop
(source lines 268-270) appends the current node before following the parent
link, so the collected list is `[goal, goal, ...]` and the start is never
appended.  The run is independent of the step-cost and heuristic values:
the open list is a singleton at every iteration. -/
theorem a_star_returns_malformed_path (resolution : ℚ) (hfun : ℤ → ℚ) :
    a_star 0 1 3 3 [0, 0, 1, 1, 1, 0, 0, 0, 1] resolution hfun = some (.ok [1, 1]) := rfl

/-- Claim C3 fails on the code: on a 2x2 grid with a length-4 costmap,
expanding start cell `3` evaluates `costmap[4]` — the right-neighbor guard
`right % width != width + 1` is vacuously true — and Python raises
`IndexError` mid-search.  The run is independent of the step-cost and
heuristic values. -/
theorem a_star_raises_out_of_range (resolution : ℚ) (hfun : ℤ → ℚ) :
    a_star 3 0 2 2 [0, 0, 0, 0] resolution hfun = some (.error .indexError) := rfl

/-- Claim C8: `a_star` is a pure function of its arguments — the model has
no hidden state, matching the source, whose only collection traversals are
over lists (in insertion order) and Python's deterministic stable sort — so
two runs on identical inputs return identical results. -/
theorem a_star_deterministic (start_index goal_index width height : ℤ)
    (costmap : List ℤ) (resolution : ℚ) (hfun : ℤ → ℚ) :
    a_star start_index goal_index width height costmap resolution hfun =
      a_star start_index goal_index width height costmap resolution hfun := rfl

/-! ### Extraction order (C7) -/

/-- Claim C7: after the open list is sorted by `f_cost`, the extracted head
has an `f_cost` less than or equal to the `f_cost` of every node remaining
in the open list. -/
theorem extracted_node_min_fcost {l : List (ℤ × ℚ)} {cur : ℤ × ℚ}
    {rest : List (ℤ × ℚ)} (h : sortOpen l = cur :: rest) :
    ∀ q ∈ rest, cur.2 ≤ q.2 := by
  have hs : List.Sorted fLE (sortOpen l) := List.sorted_insertionSort fLE l
  rw [h] at hs
  exact fun q hq => (List.sorted_cons.mp hs).1 q hq

/-- Witness for `extracted_node_min_fcost` at a concrete open list. -/
theorem extracted_node_min_fcost_witness :
    sortOpen [(5, (3 : ℚ)), (7, 2)] = ((7 : ℤ), (2 : ℚ)) :: [(5, 3)] ∧
    ∀ q ∈ ([(5, 3)] : List (ℤ × ℚ)), (((7 : ℤ), (2 : ℚ)) : ℤ × ℚ).2 ≤ q.2 :=
  ⟨rfl, @extracted_node_min_fcost [(5, (3 : ℚ)), (7, 2)] ((7 : ℤ), (2 : ℚ)) [(5, 3)] rfl⟩

/-! ### Heuristic versus step costs (C4) -/

/-- Claim C4 fails on the code: on an all-zero 3x3 grid with resolution 1
and origin (0,0), the path `[0, 4]` — a single diagonal step offered by
`find_neighbors` — has cost `1.41421` (the code prices diagonal steps with
the truncated literal `1.41421`), while the heuristic value from cell `0` to
goal `4` is `sqrt 2 ≈ 1.4142135`, which is strictly larger.  Hence the true
shortest-path cost from `0` to `4` is at most `1.41421 < heuristic`, and the
heuristic overestimates the remaining cost. -/
theorem heuristic_exceeds_step_cost :
    path_cost 3 3 [0, 0, 0, 0, 0, 0, 0, 0, 0] 1 [0, 4] = some (141421 / 100000) ∧
    ((141421 / 100000 : ℚ) : ℝ) <
      euclidean_distance (indexToWorld 0 3 1 (0, 0)) (indexToWorld 4 3 1 (0, 0)) := by
  constructor
  · have h : path_cost 3 3 [0, 0, 0, 0, 0, 0, 0, 0, 0] 1 [0, 4] =
        some (1 * (141421 / 100000) + ((0 : ℤ) : ℚ) / 255 + 0) := rfl
    rw [h]
    norm_num
  · have h0 : indexToWorld 0 3 1 (0, 0) = [0, 0] := by
      unfold indexToWorld
      norm_num
    have h4 : indexToWorld 4 3 1 (0, 0) = [1, 1] := by
      unfold indexToWorld
      rw [show ((4 : ℤ) % 3) = 1 from by decide, show ((4 : ℤ) / 3) = 1 from by decide]
      norm_num
    rw [h0, h4]
    unfold euclidean_distance
    rw [show (([(0 : ℚ), 0]).zip [(1 : ℚ), 1]) = [((0 : ℚ), (1 : ℚ)), (0, 1)] from rfl]
    rw [show (([((0 : ℚ), (1 : ℚ)), (0, 1)]).foldl
        (fun acc p => acc + (p.1 - p.2) ^ 2) 0 : ℚ) = 2 from by norm_num]
    rw [Real.lt_sqrt (by positivity)]
    push_cast
    norm_num

/-! ### Termination behaviour of the main loop (C5, C6) -/

lemma a_star_loop_succ (g w h : ℤ) (cm : List ℤ) (r : ℚ) (hf : ℤ → ℚ)
    (fuel : ℕ) (st : AState) :
    a_star_loop g w h cm r hf (Nat.succ fuel) st =
      match sortOpen st.open_list with
      | [] => .exhausted st
      | cur :: rest =>
        let st1 : AState :=
          { st with open_list := rest, closed_list := insert cur.1 st.closed_list }
        if cur.1 = g then .found st1
        else
          match find_neighbors cur.1 w h cm r with
          | .error e => .failure e
          | .ok nbs =>
            match processAll hf cur.1 st1 nbs with
            | .error e => .failure e
            | .ok st2 => a_star_loop g w h cm r hf fuel st2 := rfl

lemma reconWalk_succ (p : ℤ → Option ℤ) (s : ℤ) (fuel : ℕ) (node : ℤ) (acc : List ℤ) :
    reconWalk p s (Nat.succ fuel) node acc =
      if node = s then some (.ok acc)
      else
        match p node with
        | none => some (.error .keyError)
        | some q => reconWalk p s fuel q (acc ++ [node]) := rfl

/-- Claim C5: whenever the main loop ends because the open list became empty
before the goal was ever extracted, `a_star` returns the empty path as an
ordinary value — no exception is raised on this control path. -/
theorem a_star_exhausted_returns_empty (start_index goal_index width height : ℤ)
    (cm : List ℤ) (r : ℚ) (hf : ℤ → ℚ)
    (hex : (a_star_loop goal_index width height cm r hf (2 * cm.length + 2)
      (initState start_index hf)).isExhausted = true) :
    a_star start_index goal_index width height cm r hf = some (.ok []) := by
  cases hres : a_star_loop goal_index width height cm r hf (2 * cm.length + 2)
      (initState start_index hf) with
  | failure e => rw [hres] at hex; simp [LoopRes.isExhausted] at hex
  | fuelOut st => rw [hres] at hex; simp [LoopRes.isExhausted] at hex
  | exhausted st => unfold a_star; rw [hres]
  | found st => rw [hres] at hex; simp [LoopRes.isExhausted] at hex

/-- Witness for `a_star_exhausted_returns_empty`: a 3x3 grid whose start
cell 4 is fenced in by lethal cells, with goal 0, runs the loop to
exhaustion and returns the empty path. -/
theorem a_star_exhausted_returns_empty_witness :
    (a_star_loop 0 3 3 [1, 1, 1, 1, 0, 1, 1, 1, 1] 1 (fun _ => 0)
      (2 * ([1, 1, 1, 1, 0, 1, 1, 1, 1] : List ℤ).length + 2)
      (initState 4 (fun _ => 0))).isExhausted = true ∧
    a_star 4 0 3 3 [1, 1, 1, 1, 0, 1, 1, 1, 1] 1 (fun _ => 0) = some (.ok []) :=
  ⟨rfl, a_star_exhausted_returns_empty 4 0 3 3 [1, 1, 1, 1, 0, 1, 1, 1, 1] 1 (fun _ => 0) rfl⟩

/-- Claim C6: when start and goal coincide (and are in range), the first
extracted node is the start itself, the loop exits through the goal test on
its first iteration, and the reconstruction loop body never runs, so the
returned path is exactly `[start_index]`. -/
theorem a_star_trivial_goal (width height : ℤ) (cm : List ℤ) (r : ℚ) (hf : ℤ → ℚ)
    (s : ℤ) (_h0 : 0 ≤ s) (_h1 : s < width * height) :
    a_star s s width height cm r hf = some (.ok [s]) := by
  have hfuel : 2 * cm.length + 2 = Nat.succ (2 * cm.length + 1) := rfl
  unfold a_star
  rw [hfuel, a_star_loop_succ]
  rw [show (initState s hf).open_list = [(s, hf s)] from rfl]
  rw [show sortOpen [(s, hf s)] = [(s, hf s)] from rfl]
  dsimp only []
  rw [if_pos rfl]
  dsimp only []
  rw [reconWalk_succ, if_pos rfl]
  dsimp only []
  rw [List.reverse_singleton]

/-- Witness for `a_star_trivial_goal` at a concrete input. -/
theorem a_star_trivial_goal_witness :
    (0 : ℤ) ≤ 0 ∧ (0 : ℤ) < 2 * 2 ∧
    a_star 0 0 2 2 [0, 0, 0, 0] 1 (fun _ => 0) = some (.ok [0]) :=
  ⟨by decide, by decide, a_star_trivial_goal 2 2 [0, 0, 0, 0] 1 (fun _ => 0) 0
    (by decide) (by decide)⟩

/-! ### Termination of the main loop (C10): open-list discipline -/

lemma updateFirst_map_fst (l : List (ℤ × ℚ)) (n : ℤ) (f : ℚ) :
    (updateFirst l n f).map Prod.fst = l.map Prod.fst := by
  induction l with
  | nil => rfl
  | cons e t ih =>
    unfold updateFirst
    by_cases he : e.1 = n
    · rw [if_pos he]
      simp [he]
    · rw [if_neg he]
      simp [ih]

lemma processNeighbor_ok_closed {hf : ℤ → ℚ} {cur : ℤ} {st : AState} {nb : ℤ × ℚ}
    {st2 : AState} (h : processNeighbor hf cur st nb = .ok st2) :
    st2.closed_list = st.closed_list := by
  unfold processNeighbor at h
  split at h
  · cases h
    rfl
  · split at h
    · cases h
    · split at h
      · split at h
        · cases h
        · dsimp only [] at h
          split at h
          · cases h
            rfl
          · cases h
            rfl
      · cases h
        rfl

lemma processNeighbor_ok_open {S : Finset ℤ} {hf : ℤ → ℚ} {cur : ℤ} {st : AState}
    {nb : ℤ × ℚ} {st2 : AState} (hS : nb.1 ∈ S)
    (h : processNeighbor hf cur st nb = .ok st2) (inv : OpenOK S st) : OpenOK S st2 := by
  obtain ⟨hnd, hcl, hin⟩ := inv
  unfold processNeighbor at h
  split at h
  · cases h
    exact ⟨hnd, hcl, hin⟩
  · rename_i hmem
    split at h
    · cases h
    · split at h
      · split at h
        · cases h
        · dsimp only [] at h
          split at h
          · cases h
            refine ⟨?_, ?_, ?_⟩
            · show ((updateFirst st.open_list nb.1 _).map Prod.fst).Nodup
              rw [updateFirst_map_fst]
              exact hnd
            · intro n hn
              rw [show ({ st with
                  g_costs := dictSet st.g_costs nb.1 _,
                  f_costs := dictSet st.f_costs nb.1 _,
                  parents := dictSet st.parents nb.1 cur,
                  open_list := updateFirst st.open_list nb.1 _ } : AState).open_list
                    = updateFirst st.open_list nb.1 _ from rfl] at hn
              rw [updateFirst_map_fst] at hn
              exact hcl n hn
            · intro n hn
              rw [show ({ st with
                  g_costs := dictSet st.g_costs nb.1 _,
                  f_costs := dictSet st.f_costs nb.1 _,
                  parents := dictSet st.parents nb.1 cur,
                  open_list := updateFirst st.open_list nb.1 _ } : AState).open_list
                    = updateFirst st.open_list nb.1 _ from rfl] at hn
              rw [updateFirst_map_fst] at hn
              exact hin n hn
          · cases h
            exact ⟨hnd, hcl, hin⟩
      · rename_i hany
        cases h
        have hnotin : nb.1 ∉ st.open_list.map Prod.fst := by
          intro hmem2
          apply hany
          rw [List.any_eq_true]
          obtain ⟨p, hp, hp2⟩ := List.mem_map.mp hmem2
          exact ⟨p, hp, by simp [hp2]⟩
        refine ⟨?_, ?_, ?_⟩
        · show ((st.open_list ++ [(nb.1, _)]).map Prod.fst).Nodup
          rw [List.map_append]
          simp only [List.map_cons, List.map_nil]
          rw [List.nodup_append]
          refine ⟨hnd, List.nodup_singleton _, ?_⟩
          intro a ha hb
          rcases List.mem_singleton.mp hb with rfl
          exact hnotin ha
        · intro n hn
          rw [show ({ st with
              g_costs := dictSet st.g_costs nb.1 _,
              f_costs := dictSet st.f_costs nb.1 _,
              parents := dictSet st.parents nb.1 cur,
              open_list := st.open_list ++ [(nb.1, _)] } : AState).open_list
                = st.open_list ++ [(nb.1, _)] from rfl] at hn
          rw [List.map_append] at hn
          rcases List.mem_append.mp hn with hn | hn
          · exact hcl n hn
          · simp only [List.map_cons, List.map_nil, List.mem_singleton] at hn
            subst hn
            exact hmem
        · intro n hn
          rw [show ({ st with
              g_costs := dictSet st.g_costs nb.1 _,
              f_costs := dictSet st.f_costs nb.1 _,
              parents := dictSet st.parents nb.1 cur,
              open_list := st.open_list ++ [(nb.1, _)] } : AState).open_list
                = st.open_list ++ [(nb.1, _)] from rfl] at hn
          rw [List.map_append] at hn
          rcases List.mem_append.mp hn with hn | hn
          · exact hin n hn
          · simp only [List.map_cons, List.map_nil, List.mem_singleton] at hn
            subst hn
            exact hS

lemma processAll_ok_closed {hf : ℤ → ℚ} {cur : ℤ} :
    ∀ {nbs : List (ℤ × ℚ)} {st st2 : AState},
      processAll hf cur st nbs = .ok st2 → st2.closed_list = st.closed_list := by
  intro nbs
  induction nbs with
  | nil =>
    intro st st2 h
    cases h
    rfl
  | cons nb t ih =>
    intro st st2 h
    unfold processAll at h
    split at h
    · cases h
    · rename_i stm hm
      exact (ih h).trans (processNeighbor_ok_closed hm)

lemma processAll_ok_open {S : Finset ℤ} {hf : ℤ → ℚ} {cur : ℤ} :
    ∀ {nbs : List (ℤ × ℚ)} {st st2 : AState}, (∀ p ∈ nbs, p.1 ∈ S) →
      processAll hf cur st nbs = .ok st2 → OpenOK S st → OpenOK S st2 := by
  intro nbs
  induction nbs with
  | nil =>
    intro st st2 _ h inv
    cases h
    exact inv
  | cons nb t ih =>
    intro st st2 hS h inv
    unfold processAll at h
    split at h
    · cases h
    · rename_i stm hm
      exact ih (fun p hp => hS p (List.mem_cons_of_mem _ hp)) h
        (processNeighbor_ok_open (hS nb (List.mem_cons_self _ _)) hm inv)

lemma a_star_loop_no_fuel_out (goal_index width height : ℤ) (cm : List ℤ) (r : ℚ)
    (hf : ℤ → ℚ) (start_index : ℤ) :
    ∀ (fuel : ℕ) (st : AState), OpenOK (validSet cm start_index) st →
      st.closed_list ⊆ validSet cm start_index →
      (validSet cm start_index).card < fuel + st.closed_list.card →
      (a_star_loop goal_index width height cm r hf fuel st).isFuelOut = false := by
  intro fuel
  induction fuel with
  | zero =>
    intro st _ hsub hcard
    have := Finset.card_le_card hsub
    omega
  | succ fuel ih =>
    intro st hopen hsub hcard
    rw [a_star_loop_succ]
    cases hs : sortOpen st.open_list with
    | nil => rfl
    | cons cur rest =>
      have hperm : (cur.1 :: rest.map Prod.fst).Perm (st.open_list.map Prod.fst) := by
        have := (List.perm_insertionSort fLE st.open_list).map Prod.fst
        rw [show List.insertionSort fLE st.open_list = sortOpen st.open_list from rfl,
          hs] at this
        exact this
      have hnd2 : (cur.1 :: rest.map Prod.fst).Nodup :=
        (List.Perm.nodup_iff hperm).mpr hopen.1
      have hcurmem : cur.1 ∈ st.open_list.map Prod.fst :=
        hperm.subset (List.mem_cons_self _ _)
      have hrestsub : ∀ n ∈ rest.map Prod.fst, n ∈ st.open_list.map Prod.fst :=
        fun n hn => hperm.subset (List.mem_cons_of_mem _ hn)
      have hnd_rest : (rest.map Prod.fst).Nodup := (List.nodup_cons.mp hnd2).2
      have hcur_notin_rest : cur.1 ∉ rest.map Prod.fst := (List.nodup_cons.mp hnd2).1
      have hcurnotclosed : cur.1 ∉ st.closed_list := hopen.2.1 cur.1 hcurmem
      have hcurvalid : cur.1 ∈ validSet cm start_index := hopen.2.2 cur.1 hcurmem
      have hopen1 : OpenOK (validSet cm start_index)
          { st with open_list := rest, closed_list := insert cur.1 st.closed_list } := by
        refine ⟨hnd_rest, ?_, ?_⟩
        · intro n hn
          rw [Finset.mem_insert]
          push_neg
          constructor
          · intro hEq
            exact hcur_notin_rest (hEq ▸ hn)
          · exact hopen.2.1 n (hrestsub n hn)
        · intro n hn
          exact hopen.2.2 n (hrestsub n hn)
      have hsub1 : insert cur.1 st.closed_list ⊆ validSet cm start_index :=
        Finset.insert_subset hcurvalid hsub
      have hcard1 : (insert cur.1 st.closed_list).card = st.closed_list.card + 1 :=
        Finset.card_insert_of_not_mem hcurnotclosed
      dsimp only []
      by_cases hg : cur.1 = goal_index
      · rw [if_pos hg]
        rfl
      · rw [if_neg hg]
        cases hfn : find_neighbors cur.1 width height cm r with
        | error e => rfl
        | ok nbs =>
          dsimp only []
          have hnbsS : ∀ p ∈ nbs, p.1 ∈ validSet cm start_index := by
            intro p hp
            obtain ⟨⟨v, hv, -, -⟩, -⟩ := find_neighbors_ok_mem hfn p hp
            have hb := pyGet_ok_bounds hv
            unfold validSet
            refine Finset.mem_insert_of_mem ?_
            rw [Finset.mem_Icc]
            omega
          cases hpa : processAll hf cur.1
              (AState.mk rest (insert cur.1 st.closed_list) st.parents st.g_costs st.f_costs)
              nbs with
          | error e => rfl
          | ok st2 =>
            dsimp only []
            apply ih
            · exact processAll_ok_open hnbsS hpa hopen1
            · rw [processAll_ok_closed hpa]
              exact hsub1
            · rw [processAll_ok_closed hpa]
              rw [show (AState.mk rest (insert cur.1 st.closed_list) st.parents st.g_costs
                  st.f_costs).closed_list = insert cur.1 st.closed_list from rfl]
              omega

/-- Claim C10: the main loop always terminates.  A node enters the open list
only when it is neither open nor closed (so the open list never holds
duplicate indices), every extracted node is moved to the closed set and never
reopened, and every insertable index admits a successful costmap read, so the
closed set grows strictly inside the finite set `validSet` and the loop runs
at most `|validSet| ≤ 2 * costmap.length + 1` iterations: with the fuel
`a_star` supplies, the fuel-exhaustion marker is unreachable. -/
theorem a_star_loop_never_out_of_fuel (start_index goal_index width height : ℤ)
    (cm : List ℤ) (r : ℚ) (hf : ℤ → ℚ) :
    (a_star_loop goal_index width height cm r hf (2 * cm.length + 2)
      (initState start_index hf)).isFuelOut = false := by
  apply a_star_loop_no_fuel_out
  · refine ⟨?_, ?_, ?_⟩
    · simp [initState]
    · intro n hn
      simp [initState] at hn
      subst hn
      simp [initState]
    · intro n hn
      simp [initState] at hn
      subst hn
      exact Finset.mem_insert_self _ _
  · exact Finset.empty_subset _
  · have h1 : (validSet cm start_index).card ≤
        (Finset.Icc (-(cm.length : ℤ)) ((cm.length : ℤ) - 1)).card + 1 :=
      Finset.card_insert_le _ _
    rw [Int.card_Icc] at h1
    have h2 : ((cm.length : ℤ) - 1 + 1 - -(cm.length : ℤ)).toNat = 2 * cm.length := by
      omega
    rw [h2] at h1
    have h3 : (initState start_index hf).closed_list.card = 0 := rfl
    omega
